import Mathlib

/-!
Verification of the charon IR core: a shallow embedding in Lean 4 of the
dead-local-elimination pass (`remove_unused_locals.rs`), the constant
translation logic (`translate_constants.rs`), the registration machinery of
the translation context (`translate_ctx.rs`), the id-keyed ordered map
(`id_map.rs`) and the serialization of constant operand values
(`expressions_utils.rs`), together with proofs of the main specification
properties.

Machine integers of the source are modelled as `Nat`/`Int`; fallible code
(`unwrap`, `assert!`, `unreachable!`) is modelled with `Option`, `none`
standing for a fatal unwinding failure.
-/

namespace Charon

/-! ## Identifiers

Identifiers (`VarId::Id`, `TypeDeclId::Id`, `GlobalDeclId::Id`, ...) are
zero-based dense integers; we model each of them as `Nat`. -/

abbrev VarId := Nat
abbrev TypeDeclId := Nat
abbrev GlobalDeclId := Nat
abbrev ConstGenericVarId := Nat
abbrev FieldId := Nat
abbrev VariantId := Nat
abbrev FunDeclId := Nat
/-- A `rustc` `DefId`, an opaque host-compiler identifier; modelled as `Nat`. -/
abbrev DefId := Nat

/-! ## The type language

Modelled from the spec (`types.rs` is not among the sources): the fragment
of the erased-region type language which the embedded functions inspect: a
literal type, an ADT type applied to erased regions / type arguments /
const-generic arguments, a shared reference, and the bottom/never type. -/

inductive IntegerTy where
  | isize | i8 | i16 | i32 | i64 | i128
  | usize | u8 | u16 | u32 | u64 | u128
  deriving Repr, DecidableEq

inductive LiteralTy where
  | bool
  | char
  | integer (ity : IntegerTy)
  deriving Repr, DecidableEq

inductive TypeId where
  | adtId (id : TypeDeclId)
  | tuple
  deriving Repr, DecidableEq

/-- Scalar values (`values.rs` is not among the sources; the constructors are
those used by `translate_constants.rs`): signed payloads are `Int`, unsigned
payloads are `Nat`. -/
inductive ScalarValue where
  | isizeV (v : Int) | i8V (v : Int) | i16V (v : Int) | i32V (v : Int)
  | i64V (v : Int) | i128V (v : Int)
  | usizeV (v : Nat) | u8V (v : Nat) | u16V (v : Nat) | u32V (v : Nat)
  | u64V (v : Nat) | u128V (v : Nat)
  deriving Repr, DecidableEq

inductive Literal where
  | boolL (b : Bool)
  | charL (c : Char)
  | scalar (s : ScalarValue)
  deriving Repr, DecidableEq

inductive ErasedRegion where
  | erased
  deriving Repr, DecidableEq

/-- Const-generic values (constructors as used in `translate_constants.rs`). -/
inductive ConstGeneric where
  | value (l : Literal)
  | globalCg (id : GlobalDeclId)
  | varCg (id : ConstGenericVarId)
  deriving Repr, DecidableEq

inductive RefKind where
  | shared | mutRef
  deriving Repr, DecidableEq

inductive ETy where
  | literal (lt : LiteralTy)
  | adt (id : TypeId) (regions : List ErasedRegion) (tys : List ETy)
      (cgs : List ConstGeneric)
  | ref (r : ErasedRegion) (t : ETy) (k : RefKind)
  | never
  deriving Repr

/-- Embedding of `Ty::contains_never` (modelled from the spec: whether the bottom/never
type occurs in a type; `types_utils.rs` is not among the sources). -/
def ETy.containsNever : ETy → Bool
  | .literal _ => false
  | .never => true
  | .ref _ t _ => t.containsNever
  | .adt _ _ tys _ => go tys
where
  go : List ETy → Bool
    | [] => false
    | t :: ts => t.containsNever || go ts

/-! ## The expression model (`expressions.rs`, as used by
`expressions_utils.rs`) -/

inductive FieldProjKind where
  | adtProj (id : TypeDeclId) (variant : Option VariantId)
  | tupleProj (arity : Nat)
  | optionProj (variant : VariantId)
  deriving Repr

inductive ProjectionElem where
  | deref
  | derefBox
  | derefRawPtr
  | derefPtrUnique
  | derefPtrNonNull
  | field (pk : FieldProjKind) (fid : FieldId)
  | index (v : VarId) (ty : ETy)
  deriving Repr

abbrev Projection := List ProjectionElem

structure Place where
  var_id : VarId
  projection : Projection
  deriving Repr

inductive OperandConstantValue where
  | literal (l : Literal)
  | adtC (variant : Option VariantId) (fields : List OperandConstantValue)
  | constantId (id : GlobalDeclId)
  | staticId (id : GlobalDeclId)
  | varC (id : ConstGenericVarId)
  deriving Repr

inductive Operand where
  | copy (p : Place)
  | move (p : Place)
  | const (ty : ETy) (cv : OperandConstantValue)
  deriving Repr

inductive BorrowKind where
  | shared | mutBk | twoPhaseMut | shallow
  deriving Repr, DecidableEq

inductive UnOp where
  | not | neg | cast (src tgt : IntegerTy) | arrayToSlice
  deriving Repr

inductive BinOp where
  | bitXor | bitAnd | bitOr | eq | lt | le | ne | ge | gt
  | div | rem | add | sub | mul | shl | shr
  deriving Repr, DecidableEq

inductive AggregateKind where
  | tuple
  | optionAgg (variant : VariantId) (ty : ETy)
  | rangeAgg (ty : ETy)
  | adtAgg (id : TypeDeclId) (variant : Option VariantId)
      (regions : List ErasedRegion) (tys : List ETy) (cgs : List ConstGeneric)
  | array (ty : ETy) (cg : ConstGeneric)
  deriving Repr

inductive Rvalue where
  | use (o : Operand)
  | refRv (p : Place) (bk : BorrowKind)
  | unaryOp (op : UnOp) (o : Operand)
  | binaryOp (op : BinOp) (o1 o2 : Operand)
  | discriminant (p : Place)
  | aggregate (ak : AggregateKind) (ops : List Operand)
  | globalRv (id : GlobalDeclId)
  | len (p : Place) (ty : ETy) (cg : Option ConstGeneric)
  deriving Repr

/-! ## The statement language

Modelled from the spec (`llbc_ast.rs` is not among the sources): a body's
root statement tree is "built from sequencing and the above expression
forms"; we include assignments, reads, drops, calls (argument operands plus
a destination place), a two-way switch carrying a scrutinee operand, and the
trivial statements. -/

structure Call where
  args : List Operand
  dest : Place
  deriving Repr

inductive Statement where
  | assign (p : Place) (rv : Rvalue)
  | fakeRead (p : Place)
  | dropS (p : Place)
  | callS (c : Call)
  | nop
  | ret
  | sequence (s1 s2 : Statement)
  | switchIf (op : Operand) (s1 s2 : Statement)
  deriving Repr

/-! ## Variable occurrences

The list of variable identifiers a traversal of the shared/mut expression
visitor encounters, in visit order: the base variable of each place followed
by the index variables of its projection (`visit_place` visits `var_id`
then the projection; `default_visit_projection_elem` reaches `visit_var_id`
only through `ProjectionElem::Index`), and the variables of each operand of
each rvalue in order.  Constant operands contain no variable identifiers
(`visit_operand_constant_value` only reaches literals, global ids and
const-generic ids). -/

def projVarIds (p : Projection) : List VarId :=
  p.filterMap fun pe =>
    match pe with
    | .index i _ => some i
    | _ => none

def placeVarIds (p : Place) : List VarId :=
  p.var_id :: projVarIds p.projection

def operandVarIds : Operand → List VarId
  | .copy p => placeVarIds p
  | .move p => placeVarIds p
  | .const _ _ => []

def rvalueVarIds : Rvalue → List VarId
  | .use o => operandVarIds o
  | .refRv p _ => placeVarIds p
  | .unaryOp _ o => operandVarIds o
  | .binaryOp _ o1 o2 => operandVarIds o1 ++ operandVarIds o2
  | .discriminant p => placeVarIds p
  | .aggregate _ ops => (ops.map operandVarIds).flatten
  | .globalRv _ => []
  | .len p _ _ => placeVarIds p

def callVarIds (c : Call) : List VarId :=
  (c.args.map operandVarIds).flatten ++ placeVarIds c.dest

def statementVarIds : Statement → List VarId
  | .assign p rv => placeVarIds p ++ rvalueVarIds rv
  | .fakeRead p => placeVarIds p
  | .dropS p => placeVarIds p
  | .callS c => callVarIds c
  | .nop => []
  | .ret => []
  | .sequence s1 s2 => statementVarIds s1 ++ statementVarIds s2
  | .switchIf op s1 s2 =>
      operandVarIds op ++ statementVarIds s1 ++ statementVarIds s2

/-! ## `ComputeUsedLocals` (`remove_unused_locals.rs`)

The visitor state is the occurrence map `vars : im::HashMap<VarId::Id,
usize>`; we model it as an association list with first-match lookup (the
representation order is irrelevant: the pass only reads it through `get` and
through an order-insensitive iteration). -/

abbrev VarMap := List (Nat × Nat)

/-- First-match association-list lookup (`HashMap::get`). -/
def lookupN (m : List (Nat × Nat)) (k : Nat) : Option Nat :=
  (m.find? fun p => p.1 = k).map (·.2)

/-- Embedding of `ComputeUsedLocals::visit_var_id`: increment the counter of `vid`,
inserting it with count 1 when absent. -/
def cuVisitVarId (m : VarMap) (vid : VarId) : VarMap :=
  match m with
  | [] => [(vid, 1)]
  | (k, c) :: t =>
      if k = vid then (k, c + 1) :: t else (k, c) :: cuVisitVarId t vid

/-- The visitor's traversal of a projection element
(`default_visit_projection_elem`): only `Index` carries a variable id. -/
def cuVisitProjectionElem (m : VarMap) (pe : ProjectionElem) : VarMap :=
  match pe with
  | .index i _ => cuVisitVarId m i
  | _ => m

/-- Embedding of `visit_place`: the base variable, then the projection elements. -/
def cuVisitPlace (m : VarMap) (p : Place) : VarMap :=
  p.projection.foldl cuVisitProjectionElem (cuVisitVarId m p.var_id)

/-- Embedding of `default_visit_operand`: constant operands hold no variable ids. -/
def cuVisitOperand (m : VarMap) (o : Operand) : VarMap :=
  match o with
  | .copy p => cuVisitPlace m p
  | .move p => cuVisitPlace m p
  | .const _ _ => m

/-- Embedding of `default_visit_rvalue`. -/
def cuVisitRvalue (m : VarMap) (rv : Rvalue) : VarMap :=
  match rv with
  | .use o => cuVisitOperand m o
  | .refRv p _ => cuVisitPlace m p
  | .unaryOp _ o => cuVisitOperand m o
  | .binaryOp _ o1 o2 => cuVisitOperand (cuVisitOperand m o1) o2
  | .discriminant p => cuVisitPlace m p
  | .aggregate _ ops => ops.foldl cuVisitOperand m
  | .globalRv _ => m
  | .len p _ _ => cuVisitPlace m p

/-- Embedding of `visit_call`: the argument operands, then the destination place. -/
def cuVisitCall (m : VarMap) (c : Call) : VarMap :=
  cuVisitPlace (c.args.foldl cuVisitOperand m) c.dest

/-- The statement traversal of the shared AST visitor (`spawn` runs the
sub-traversal on the same state and `merge` is a no-op, so the traversal is
plainly sequential). -/
def cuVisitStatement (m : VarMap) : Statement → VarMap
  | .assign p rv => cuVisitRvalue (cuVisitPlace m p) rv
  | .fakeRead p => cuVisitPlace m p
  | .dropS p => cuVisitPlace m p
  | .callS c => cuVisitCall m c
  | .nop => m
  | .ret => m
  | .sequence s1 s2 => cuVisitStatement (cuVisitStatement m s1) s2
  | .switchIf op s1 s2 =>
      cuVisitStatement (cuVisitStatement (cuVisitOperand m op) s1) s2

/-- Embedding of `ComputeUsedLocals::compute_in_statement`: run the visitor with an empty
occurrence map. -/
def compute_in_statement (st : Statement) : VarMap :=
  cuVisitStatement [] st

/-! ## `UpdateUsedLocals` (`remove_unused_locals.rs`)

The mutating visitor rewriting every variable id through `vids_map`; the
`unwrap` on a map miss (`visit_var_id`) is a fatal failure, modelled by
`none`. -/

/-- Rewrite each element of a list through a fallible function, failing as
soon as one element fails (the behavior of a mutating visitor whose
per-element rewrite can hit a fatal failure). -/
def mapOpt {A B : Type} (f : A → Option B) : List A → Option (List B)
  | [] => some []
  | x :: t => do
      let y ← f x
      let t2 ← mapOpt f t
      pure (y :: t2)

/-- Embedding of `UpdateUsedLocals::visit_var_id`:
`*vid = *self.vids_map.get(vid).unwrap()`. -/
def uuVisitVarId (m : List (Nat × Nat)) (vid : VarId) : Option VarId :=
  lookupN m vid

def uuVisitProjectionElem (m : List (Nat × Nat)) (pe : ProjectionElem) :
    Option ProjectionElem :=
  match pe with
  | .index i ty => (uuVisitVarId m i).map fun i2 => .index i2 ty
  | pe => some pe

def uuVisitPlace (m : List (Nat × Nat)) (p : Place) : Option Place := do
  let v ← uuVisitVarId m p.var_id
  let proj ← mapOpt (uuVisitProjectionElem m) p.projection
  pure ⟨v, proj⟩

def uuVisitOperand (m : List (Nat × Nat)) (o : Operand) : Option Operand :=
  match o with
  | .copy p => (uuVisitPlace m p).map .copy
  | .move p => (uuVisitPlace m p).map .move
  | .const ty cv => some (.const ty cv)

def uuVisitRvalue (m : List (Nat × Nat)) (rv : Rvalue) : Option Rvalue :=
  match rv with
  | .use o => (uuVisitOperand m o).map .use
  | .refRv p bk => (uuVisitPlace m p).map (.refRv · bk)
  | .unaryOp op o => (uuVisitOperand m o).map (.unaryOp op)
  | .binaryOp op o1 o2 => do
      let o1 ← uuVisitOperand m o1
      let o2 ← uuVisitOperand m o2
      pure (.binaryOp op o1 o2)
  | .discriminant p => (uuVisitPlace m p).map .discriminant
  | .aggregate ak ops => (mapOpt (uuVisitOperand m) ops).map (.aggregate ak)
  | .globalRv id => some (.globalRv id)
  | .len p ty cg => (uuVisitPlace m p).map (.len · ty cg)

def uuVisitCall (m : List (Nat × Nat)) (c : Call) : Option Call := do
  let args ← mapOpt (uuVisitOperand m) c.args
  let dest ← uuVisitPlace m c.dest
  pure ⟨args, dest⟩

/-- The statement traversal of the mutating AST visitor
(`UpdateUsedLocals::update_statement`). -/
def uuVisitStatement (m : List (Nat × Nat)) : Statement → Option Statement
  | .assign p rv => do
      let p ← uuVisitPlace m p
      let rv ← uuVisitRvalue m rv
      pure (.assign p rv)
  | .fakeRead p => (uuVisitPlace m p).map .fakeRead
  | .dropS p => (uuVisitPlace m p).map .dropS
  | .callS c => (uuVisitCall m c).map .callS
  | .nop => some .nop
  | .ret => some .ret
  | .sequence s1 s2 => do
      let s1 ← uuVisitStatement m s1
      let s2 ← uuVisitStatement m s2
      pure (.sequence s1 s2)
  | .switchIf op s1 s2 => do
      let op ← uuVisitOperand m op
      let s1 ← uuVisitStatement m s1
      let s2 ← uuVisitStatement m s2
      pure (.switchIf op s1 s2)

/-! ## `update_locals` (`remove_unused_locals.rs`) -/

/-- A local variable (`ullbc_ast::Var`). -/
structure Var where
  index : VarId
  name : Option String
  ty : ETy
  deriving Repr

/-- Embedding of `HashSet<VarId::Id>` insertion, modelled on a list keeping first
insertion order (only membership is ever read). -/
def hsInsert (l : List Nat) (v : Nat) : List Nat :=
  if v ∈ l then l else l ++ [v]

/-- The used-locals set of `update_locals`: the return slot and the input
arguments (`0..=num_inputs`), plus every variable whose occurrence counter
is nonzero. -/
def usedLocalsOf (num_inputs : Nat) (st : Statement) : List Nat :=
  let base := (List.range (num_inputs + 1)).foldl hsInsert []
  (compute_in_statement st).foldl
    (fun s p => if p.2 > 0 then hsInsert s p.1 else s) base

/-- The state of the filtering loop of `update_locals`: the substitution map
under construction, the new dense vector of locals, and the fresh-id
generator. -/
structure ULState where
  vids_map : List (Nat × Nat)
  locals : List Var
  counter : Nat
  deriving Repr

/-- The filtering loop of `update_locals`: walk the old locals in order;
a local whose id is in the used set is renumbered with the next fresh id,
recorded in the substitution map and pushed onto the new vector (the
`assert!(new_id.to_usize() == locals.len())` guarding `push_back` is
modelled by the inner test). -/
def ulLoop (used : List Nat) : ULState → List Var → Option ULState
  | s, [] => some s
  | s, var :: rest =>
      if var.index ∈ used then
        let old_id := var.index
        let new_id := s.counter
        if new_id = s.locals.length then
          ulLoop used
            { vids_map := (old_id, new_id) :: s.vids_map,
              locals := s.locals ++ [{ var with index := new_id }],
              counter := s.counter + 1 } rest
        else none
      else ulLoop used s rest

/-- Embedding of `update_locals`: compute the used set, filter and renumber the locals,
and check that no remaining local has the `Never` type. -/
def update_locals (num_inputs : Nat) (old_locals : List Var)
    (st : Statement) : Option (List Var × List (Nat × Nat)) :=
  match ulLoop (usedLocalsOf num_inputs st) ⟨[], [], 0⟩ old_locals with
  | none => none
  | some s =>
      if s.locals.all (fun v => !v.ty.containsNever) then
        some (s.locals, s.vids_map)
      else none

/-! ## Serialization of `OperandConstantValue` (`expressions_utils.rs`)

`impl Serialize for OperandConstantValue` exports the underlying literal in
the `Literal` case and hits `unreachable!` on every other variant.  The
outcome is modelled with an explicit result type: `ok` carries the literal
that determines the serialized form, `fatalError` models the unwinding
`unreachable!` (the recoverable `S::Error` channel of the serializer is
never used by this implementation, so it does not appear). -/

inductive SerResult where
  | ok (l : Literal)
  | fatalError
  deriving Repr, DecidableEq

def serializeOperandConstantValue : OperandConstantValue → SerResult
  | .literal cv => .ok cv
  | _ => .fatalError

/-- Whether a constant operand value is the `Literal` variant. -/
def OperandConstantValue.isLiteralV : OperandConstantValue → Bool
  | .literal _ => true
  | _ => false

/-! ## The ordered id-map (`id_map.rs`)

`Map<Id, T>` wraps a `BTreeMap<Id, T>`; we model the B-tree map as a
strictly-sorted association list, with `BTreeMap::insert` keeping the list
sorted and replacing an existing binding.  Serialization emits the bindings
in stored (key-sorted) order. -/

def btreeInsert {V : Type} (k : Nat) (v : V) :
    List (Nat × V) → List (Nat × V)
  | [] => [(k, v)]
  | (k2, v2) :: t =>
      if k < k2 then (k, v) :: (k2, v2) :: t
      else if k = k2 then (k, v) :: t
      else (k2, v2) :: btreeInsert k v t

/-- Embedding of `BTreeMap::get`. -/
def btreeGet {V : Type} (m : List (Nat × V)) (k : Nat) : Option V :=
  (m.find? fun p => p.1 = k).map (·.2)

/-- Build a map from a sequence of `insert` calls. -/
def mapOfList {V : Type} (l : List (Nat × V)) : List (Nat × V) :=
  l.foldl (fun m p => btreeInsert p.1 p.2 m) []

/-- Embedding of `impl Serialize for Map`: the bindings as a sequence of pairs, in the
map's iteration (key-sorted) order. -/
def serializeMap {V : Type} (m : List (Nat × V)) : List (Nat × V) := m

/-! ## The translation context (`translate_ctx.rs`) -/

/-- Embedding of `reorder_decls::AnyRustId`: a not-yet-translated declaration on the
work-list, tagged by namespace. -/
inductive AnyRustId where
  | typeR (d : DefId)
  | funR (d : DefId)
  | globalR (d : DefId)
  deriving Repr, DecidableEq

/-- Embedding of `reorder_decls::AnyTransId`. -/
inductive AnyTransId where
  | typeT (i : TypeDeclId)
  | funT (i : FunDeclId)
  | globalT (i : GlobalDeclId)
  deriving Repr, DecidableEq

/-- Modelled from the spec: a `MapGenerator` (the `macros` crate is not
among the sources) pairs a fresh-id generator with a memoizing map from
host-compiler ids to dense target ids; `insert` draws the next fresh id and
records the binding. -/
structure MapGenerator where
  counter : Nat
  map : List (Nat × Nat)
  deriving Repr, DecidableEq

def MapGenerator.get (g : MapGenerator) (d : DefId) : Option Nat :=
  lookupN g.map d

def MapGenerator.insertFresh (g : MapGenerator) (d : DefId) :
    Nat × MapGenerator :=
  (g.counter, { counter := g.counter + 1, map := (d, g.counter) :: g.map })

/-- Modelled from the spec: the `extraction mode` configuration
(`get_mir.rs` is not among the sources), with the two recognized values:
top-level constants extracted as named globals, or constants inlined at use
site. -/
inductive MirLevel where
  | extractTopLevel
  | inlineConstants
  deriving Repr, DecidableEq

/-- Modelled from the spec: `get_mir::extract_constants_at_top_level`. -/
def extract_constants_at_top_level : MirLevel → Bool
  | .extractTopLevel => true
  | .inlineConstants => false

/-- A variant of a type declaration; only its field list matters to the
embedded functions.  Modelled from the spec (`types.rs` is not among the
sources). -/
structure VariantDef where
  fields : List ETy
  deriving Repr

/-- Embedding of `TypeDeclKind` (modelled from the spec; the constructors are those
matched in `translate_constants.rs`). -/
inductive TypeDeclKind where
  | enumK (variants : List VariantDef)
  | structK (fields : List ETy)
  | opaqueK
  deriving Repr

/-- A type declaration; only the type parameters and the kind are read by
the embedded functions. -/
structure TypeDecl where
  type_params : List String
  kind : TypeDeclKind
  deriving Repr

/-- The slice of `TransCtx` the registration and constant-translation
functions touch: the extraction mode, the set of all translated ids, the
work-list stack (a `LinkedHashSet`: insertion-ordered, duplicate-free), the
three memoizing id-maps and the translated type declarations. -/
structure TransCtx where
  mir_level : MirLevel
  all_ids : List AnyTransId
  stack : List AnyRustId
  type_id_map : MapGenerator
  fun_id_map : MapGenerator
  global_id_map : MapGenerator
  type_defs : List (TypeDeclId × TypeDecl)
  deriving Repr

/-- Embedding of `LinkedHashSet::insert`: append the element unless already present. -/
def lhsInsert {A : Type} [DecidableEq A] (l : List A) (x : A) : List A :=
  if x ∈ l then l else l ++ [x]

/-- Embedding of `TransCtx::push_id`: push the declaration on the stack of declarations
to translate and record its translated id. -/
def TransCtx.push_id (ctx : TransCtx) (id : AnyRustId) (trans_id : AnyTransId) :
    TransCtx :=
  { ctx with stack := lhsInsert ctx.stack id,
             all_ids := lhsInsert ctx.all_ids trans_id }

/-- Embedding of `TransCtx::register_type_decl_id`. -/
def TransCtx.register_type_decl_id (ctx : TransCtx) (id : DefId) :
    TypeDeclId × TransCtx :=
  match ctx.type_id_map.get id with
  | some i => (i, ctx)
  | none =>
      let (trans_id, m) := ctx.type_id_map.insertFresh id
      let ctx := { ctx with type_id_map := m }
      (trans_id, ctx.push_id (.typeR id) (.typeT trans_id))

/-- Embedding of `TransCtx::register_fun_decl_id`. -/
def TransCtx.register_fun_decl_id (ctx : TransCtx) (id : DefId) :
    FunDeclId × TransCtx :=
  match ctx.fun_id_map.get id with
  | some i => (i, ctx)
  | none =>
      let (trans_id, m) := ctx.fun_id_map.insertFresh id
      let ctx := { ctx with fun_id_map := m }
      (trans_id, ctx.push_id (.funR id) (.funT trans_id))

/-- Embedding of `TransCtx::register_global_decl_id`. -/
def TransCtx.register_global_decl_id (ctx : TransCtx) (id : DefId) :
    GlobalDeclId × TransCtx :=
  match ctx.global_id_map.get id with
  | some i => (i, ctx)
  | none =>
      let (trans_id, m) := ctx.global_id_map.insertFresh id
      let ctx := { ctx with global_id_map := m }
      (trans_id, ctx.push_id (.globalR id) (.globalT trans_id))

/-- Embedding of `translate_global_decl_id` simply delegates to the register function. -/
def TransCtx.translate_global_decl_id (ctx : TransCtx) (id : DefId) :
    GlobalDeclId × TransCtx :=
  ctx.register_global_decl_id id

/-! ## Constant translation (`translate_constants.rs`) -/

/-- The typed readouts of a `mir::interpret::Scalar` bit pattern.  The
scalar is an opaque host value; the source only accesses it through its
fallible `to_*` conversions, which is what we record (the documentation of
`Scalar` explicitly forbids matching on it directly). -/
structure ScalarBits where
  asBool : Option Bool
  asChar : Option Char
  asI8 : Option Int
  asI16 : Option Int
  asI32 : Option Int
  asI64 : Option Int
  asI128 : Option Int
  asU8 : Option Nat
  asU16 : Option Nat
  asU32 : Option Nat
  asU64 : Option Nat
  asU128 : Option Nat
  deriving Repr

/-- The target of a host pointer (`tcx.global_alloc`): a static item or
some other allocation. -/
inductive GlobalAlloc where
  | staticAlloc (d : DefId)
  | otherAlloc
  deriving Repr

/-- Embedding of `mir::interpret::Scalar`: an integer bit pattern or a pointer. -/
inductive Scalar where
  | bits (b : ScalarBits)
  | ptr (alloc : GlobalAlloc)
  deriving Repr

def Scalar.asBool : Scalar → Option Bool
  | .bits b => b.asBool
  | .ptr _ => none

def Scalar.asChar : Scalar → Option Char
  | .bits b => b.asChar
  | .ptr _ => none

def Scalar.asI64 : Scalar → Option Int
  | .bits b => b.asI64
  | .ptr _ => none

def Scalar.asU64 : Scalar → Option Nat
  | .bits b => b.asU64
  | .ptr _ => none

def Scalar.asI8 : Scalar → Option Int
  | .bits b => b.asI8
  | .ptr _ => none

def Scalar.asI16 : Scalar → Option Int
  | .bits b => b.asI16
  | .ptr _ => none

def Scalar.asI32 : Scalar → Option Int
  | .bits b => b.asI32
  | .ptr _ => none

def Scalar.asI128 : Scalar → Option Int
  | .bits b => b.asI128
  | .ptr _ => none

def Scalar.asU8 : Scalar → Option Nat
  | .bits b => b.asU8
  | .ptr _ => none

def Scalar.asU16 : Scalar → Option Nat
  | .bits b => b.asU16
  | .ptr _ => none

def Scalar.asU32 : Scalar → Option Nat
  | .bits b => b.asU32
  | .ptr _ => none

def Scalar.asU128 : Scalar → Option Nat
  | .bits b => b.asU128
  | .ptr _ => none

/-- Embedding of `translate_constant_integer_like_value`: read the literal out of the
scalar according to the destination type.  The host pointer width is 64
bits in this model, so the `size_of` assertions for `isize`/`usize` hold;
`unwrap` failures and the `unreachable!` on non-literal types are `none`. -/
def translate_constant_integer_like_value (ty : ETy) (scalar : Scalar) :
    Option Literal :=
  match ty with
  | .literal .bool => (scalar.asBool).map .boolL
  | .literal .char => (scalar.asChar).map .charL
  | .literal (.integer i) =>
      (match i with
       | .isize => (scalar.asI64).map ScalarValue.isizeV
       | .usize => (scalar.asU64).map ScalarValue.usizeV
       | .i8 => (scalar.asI8).map ScalarValue.i8V
       | .u8 => (scalar.asU8).map ScalarValue.u8V
       | .i16 => (scalar.asI16).map ScalarValue.i16V
       | .u16 => (scalar.asU16).map ScalarValue.u16V
       | .i32 => (scalar.asI32).map ScalarValue.i32V
       | .u32 => (scalar.asU32).map ScalarValue.u32V
       | .i64 => (scalar.asI64).map ScalarValue.i64V
       | .u64 => (scalar.asU64).map ScalarValue.u64V
       | .i128 => (scalar.asI128).map ScalarValue.i128V
       | .u128 => (scalar.asU128).map ScalarValue.u128V).map Literal.scalar
  | _ => none

/-- Embedding of `BodyTransCtx::translate_constant_scalar_value`.  The context is the
`TransCtx` slice (for `type_defs` and for registering the global referenced
by a static pointer); every `assert!`, `unwrap` and `unreachable!` of the
source is a `none`. -/
def translate_constant_scalar_value (ctx : TransCtx) (llbc_ty : ETy)
    (scalar : Scalar) : Option (OperandConstantValue × TransCtx) :=
  match llbc_ty with
  | .literal .bool | .literal .char | .literal (.integer _) =>
      (translate_constant_integer_like_value llbc_ty scalar).map
        fun v => (.literal v, ctx)
  | .adt (.adtId id) region_tys field_tys cgs =>
      if region_tys.isEmpty && field_tys.isEmpty && cgs.isEmpty then
        match (ctx.type_defs.find? fun p => p.1 = id).map (·.2) with
        | none => none
        | some def1 =>
            -- Check that there is only one variant, with no fields
            -- and no parameters. Construct the value at the same time.
            if def1.type_params.isEmpty then
              match def1.kind with
              | .enumK variants =>
                  if variants.length = 1 then
                    some (.adtC (some 0) [], ctx)
                  else none
              | .structK _ => some (.adtC none [], ctx)
              | .opaqueK => none
            else none
      else none
  | .adt .tuple region_tys field_tys cgs =>
      if region_tys.isEmpty && field_tys.isEmpty && cgs.isEmpty then
        some (.adtC none [], ctx)
      else none
  | .ref .erased _ .shared =>
      match scalar with
      | .ptr alloc =>
          match alloc with
          | .staticAlloc s =>
              let (id, ctx) := ctx.translate_global_decl_id s
              some (.staticId id, ctx)
          | .otherAlloc => none
      | .bits _ => none
  | _ => none

/-- An opaque handle to a host-compiler (`rustc_middle`) type. -/
abbrev MirTy := Nat

/-- Embedding of `rustc_middle::mir::UnevaluatedConst`: only its defining declaration id
is read. -/
structure UnevaluatedConst where
  def_id : DefId
  deriving Repr, DecidableEq

/-- Embedding of `BodyTransCtx::translate_constant_id_as_top_level`.  `translateEty`
stands for `translate_ety` (`translate_types.rs` is not among the sources):
the translation of the host destination type, an input of this function's
behavior.  The leading `assert!(extract_constants_at_top_level(..))` and
the `unwrap` on the type translation are `none`. -/
def translate_constant_id_as_top_level (translateEty : MirTy → Option ETy)
    (ctx : TransCtx) (rid : DefId) (mir_ty : MirTy) :
    Option ((ETy × OperandConstantValue) × TransCtx) :=
  if extract_constants_at_top_level ctx.mir_level then
    let (id, ctx) := ctx.translate_global_decl_id rid
    (translateEty mir_ty).map fun ty => ((ty, .constantId id), ctx)
  else none

/-- Embedding of `BodyTransCtx::translate_const_kind_unevaluated`.  In inline mode the
source evaluates the constant through the host compiler
(`tcx.const_eval_resolve`) and recursively translates the result;
`inlineEval` stands for that branch (an external oracle plus code exercised
only in inline mode). -/
def translate_const_kind_unevaluated
    (inlineEval : TransCtx → MirTy → UnevaluatedConst →
      Option ((ETy × OperandConstantValue) × TransCtx))
    (translateEty : MirTy → Option ETy)
    (ctx : TransCtx) (mir_ty : MirTy) (ucv : UnevaluatedConst) :
    Option ((ETy × OperandConstantValue) × TransCtx) :=
  if extract_constants_at_top_level ctx.mir_level then
    translate_constant_id_as_top_level translateEty ctx ucv.def_id mir_ty
  else
    inlineEval ctx mir_ty ucv

/-! ## `BodyTransCtx` variable registration (`translate_ctx.rs`) -/

/-- Embedding of `ty::ConstGenericVar`. -/
structure ConstGenericVar where
  index : ConstGenericVarId
  name : String
  ty : LiteralTy
  deriving Repr

/-- The slice of `BodyTransCtx` the variable-registration functions touch:
the fresh-id generators (modelled as the next id to issue), the dense
vectors, and the maps from host indices to translated indices. -/
structure BodyTransCtx where
  vars_counter : Nat
  vars : List Var
  vars_map : List (Nat × Nat)
  const_generic_counter : Nat
  const_generic_vars : List ConstGenericVar
  const_generic_vars_map : List (Nat × Nat)
  deriving Repr

/-- Modelled from the spec: dense-vector insertion at an identifier
(`id_vector.rs` is not among the sources).  The spec's dense vector stores
payloads "with no gaps" and must be extended at the next unused identifier,
a violation being a programming error (`none`). -/
def vecInsertAt {A : Type} (v : List A) (id : Nat) (x : A) :
    Option (List A) :=
  if id = v.length then some (v ++ [x]) else none

/-- Embedding of `BodyTransCtx::push_var`: draw a fresh variable id, check it is dense
with respect to `self.vars`, and record the variable. -/
def BodyTransCtx.push_var (ctx : BodyTransCtx) (rid : Nat) (ty : ETy)
    (name : Option String) : Option BodyTransCtx :=
  let var_id := ctx.vars_counter
  if var_id = ctx.vars.length then
    (vecInsertAt ctx.vars var_id { index := var_id, name, ty }).map
      fun vars =>
        { ctx with vars_counter := var_id + 1,
                   vars,
                   vars_map := (rid, var_id) :: ctx.vars_map }
  else none

/-- Embedding of `BodyTransCtx::push_const_generic_var`: draw a fresh const-generic
variable id but assert it against `self.vars.len()` — the regular-local
vector — before inserting into `self.const_generic_vars`. -/
def BodyTransCtx.push_const_generic_var (ctx : BodyTransCtx) (rid : Nat)
    (ty : LiteralTy) (name : String) : Option BodyTransCtx :=
  let var_id := ctx.const_generic_counter
  if var_id = ctx.vars.length then
    (vecInsertAt ctx.const_generic_vars var_id
        { index := var_id, name, ty }).map
      fun cgv =>
        { ctx with const_generic_counter := var_id + 1,
                   const_generic_vars := cgv,
                   const_generic_vars_map := (rid, var_id) ::
                     ctx.const_generic_vars_map }
  else none

/-! ## Concrete example inputs (used by the claim witnesses) and the
density invariant -/

/-- The loop invariant giving density: the generator agrees with the new
vector's length and every retained local's index equals its position. -/
def DenseState (s : ULState) : Prop :=
  s.counter = s.locals.length ∧
    ∀ i (h : i < s.locals.length), (s.locals.get ⟨i, h⟩).index = i

/-- Example function body for the witnesses: one unused input-free body
with three locals, the middle one (of type `Never`) unreferenced, and one
statement referencing local 2. -/
def exSt : Statement := .fakeRead ⟨2, []⟩

def exLocals : List Var :=
  [⟨0, none, .literal .bool⟩, ⟨1, none, .never⟩, ⟨2, none, .literal .bool⟩]

def exNewLocals : List Var :=
  [⟨0, none, .literal .bool⟩, ⟨1, none, .literal .bool⟩]

def exMap : List (Nat × Nat) := [(2, 1), (0, 0)]

/-- An empty `ScalarBits` record (no readout succeeds). -/
def exBits : ScalarBits :=
  ⟨none, none, none, none, none, none, none, none, none, none, none, none⟩

/-- A context whose type 0 is a struct with one (`bool`) field. -/
def exCtx6 : TransCtx :=
  { mir_level := .extractTopLevel, all_ids := [], stack := [],
    type_id_map := ⟨0, []⟩, fun_id_map := ⟨0, []⟩, global_id_map := ⟨0, []⟩,
    type_defs := [(0, ⟨[], .structK [.literal .bool]⟩)] }

/-- A context whose type 0 is an enum with a single one-field variant. -/
def exCtx6e : TransCtx :=
  { exCtx6 with type_defs := [(0, ⟨[], .enumK [⟨[.literal .bool]⟩]⟩)] }

/-- Concrete context for the C7 witness. -/
def exCtx7 : TransCtx :=
  { mir_level := .extractTopLevel, all_ids := [], stack := [],
    type_id_map := ⟨0, []⟩, fun_id_map := ⟨0, []⟩, global_id_map := ⟨0, []⟩,
    type_defs := [] }

/-- Concrete body context for the C10 witness: no locals pushed yet. -/
def exCtx10 : BodyTransCtx := ⟨0, [], [], 0, [], []⟩

/-! ## Lemmas: the occurrence map -/

theorem lookupN_nil (k : Nat) : lookupN [] k = none := rfl

theorem lookupN_cons (a b : Nat) (t : List (Nat × Nat)) (k : Nat) :
    lookupN ((a, b) :: t) k = if a = k then some b else lookupN t k := by
  simp only [lookupN, List.find?_cons]
  by_cases h : a = k <;> simp [h]

theorem lookupN_cuVisitVarId (m : VarMap) (v w : Nat) :
    lookupN (cuVisitVarId m v) w =
      if w = v then some ((lookupN m v).getD 0 + 1) else lookupN m w := by
  induction m with
  | nil =>
      by_cases h : w = v
      · subst h; simp [cuVisitVarId, lookupN_cons, lookupN_nil]
      · have h2 : ¬ v = w := fun hh => h hh.symm
        simp [cuVisitVarId, lookupN_cons, lookupN_nil, h, h2]
  | cons p t ih =>
      obtain ⟨k, c⟩ := p
      by_cases hk : k = v
      · subst hk
        by_cases hw : w = k <;> simp [cuVisitVarId, lookupN_cons, hw, eq_comm]
      · by_cases hw : w = v
        · subst hw
          have hkw : ¬ k = w := hk
          simp [cuVisitVarId, hk, lookupN_cons, hkw, ih]
        · by_cases hkw : k = w <;>
            simp [cuVisitVarId, hk, lookupN_cons, hkw, ih, hw]

theorem lookupN_foldl_cuVisitVarId (l : List Nat) :
    ∀ (m : VarMap) (v : Nat),
      lookupN (l.foldl cuVisitVarId m) v =
        if l.count v = 0 then lookupN m v
        else some ((lookupN m v).getD 0 + l.count v) := by
  induction l with
  | nil => intro m v; simp
  | cons a l ih =>
      intro m v
      rw [List.foldl_cons, ih]
      by_cases hv : v = a
      · subst hv
        have hcount : (v :: l).count v = l.count v + 1 := by
          simp [List.count_cons]
        rw [hcount]
        by_cases hc : l.count v = 0
        · simp [hc, lookupN_cuVisitVarId]
        · simp only [lookupN_cuVisitVarId, eq_self_iff_true, if_true,
            if_neg hc, if_neg (show ¬ l.count v + 1 = 0 by omega),
            Option.getD_some]
          congr 1
          omega
      · have hcount : (a :: l).count v = l.count v := by
          simp [List.count_cons, hv]
        rw [hcount]
        simp only [lookupN_cuVisitVarId, if_neg hv]

/-! ## Lemmas: each traversal of `ComputeUsedLocals` folds
`visit_var_id` over the occurrence list -/

theorem cuVisitProjection_eq (l : Projection) :
    ∀ m : VarMap,
      l.foldl cuVisitProjectionElem m =
        (projVarIds l).foldl cuVisitVarId m := by
  induction l with
  | nil => intro m; simp [projVarIds]
  | cons pe t ih =>
      intro m
      cases pe <;> simp [projVarIds, cuVisitProjectionElem, ih,
        List.filterMap_cons]

theorem cuVisitPlace_eq (m : VarMap) (p : Place) :
    cuVisitPlace m p = (placeVarIds p).foldl cuVisitVarId m := by
  simp [cuVisitPlace, placeVarIds, cuVisitProjection_eq]

theorem cuVisitOperand_eq (m : VarMap) (o : Operand) :
    cuVisitOperand m o = (operandVarIds o).foldl cuVisitVarId m := by
  cases o <;> simp [cuVisitOperand, operandVarIds, cuVisitPlace_eq]

theorem cuVisitOperands_eq (ops : List Operand) :
    ∀ m : VarMap,
      ops.foldl cuVisitOperand m =
        ((ops.map operandVarIds).flatten).foldl cuVisitVarId m := by
  induction ops with
  | nil => intro m; simp
  | cons o t ih =>
      intro m
      simp [ih, cuVisitOperand_eq, List.foldl_append]

theorem cuVisitRvalue_eq (m : VarMap) (rv : Rvalue) :
    cuVisitRvalue m rv = (rvalueVarIds rv).foldl cuVisitVarId m := by
  cases rv <;> simp [cuVisitRvalue, rvalueVarIds, cuVisitPlace_eq,
    cuVisitOperand_eq, cuVisitOperands_eq, List.foldl_append]

theorem cuVisitCall_eq (m : VarMap) (c : Call) :
    cuVisitCall m c = (callVarIds c).foldl cuVisitVarId m := by
  simp [cuVisitCall, callVarIds, cuVisitPlace_eq, cuVisitOperands_eq,
    List.foldl_append]

theorem cuVisitStatement_eq (st : Statement) :
    ∀ m : VarMap,
      cuVisitStatement m st = (statementVarIds st).foldl cuVisitVarId m := by
  induction st with
  | assign p rv =>
      intro m
      simp [cuVisitStatement, statementVarIds, cuVisitPlace_eq,
        cuVisitRvalue_eq, List.foldl_append]
  | fakeRead p =>
      intro m; simp [cuVisitStatement, statementVarIds, cuVisitPlace_eq]
  | dropS p =>
      intro m; simp [cuVisitStatement, statementVarIds, cuVisitPlace_eq]
  | callS c =>
      intro m; simp [cuVisitStatement, statementVarIds, cuVisitCall_eq]
  | nop => intro m; simp [cuVisitStatement, statementVarIds]
  | ret => intro m; simp [cuVisitStatement, statementVarIds]
  | sequence s1 s2 ih1 ih2 =>
      intro m
      simp [cuVisitStatement, statementVarIds, ih1, ih2, List.foldl_append]
  | switchIf op s1 s2 ih1 ih2 =>
      intro m
      simp [cuVisitStatement, statementVarIds, ih1, ih2,
        cuVisitOperand_eq, List.foldl_append]

/-- C4, claim theorem (see below): the computed occurrence map, pointwise. -/
theorem lookupN_compute_in_statement (st : Statement) (v : VarId) :
    lookupN (compute_in_statement st) v =
      if (statementVarIds st).count v = 0 then none
      else some ((statementVarIds st).count v) := by
  rw [compute_in_statement, cuVisitStatement_eq,
    lookupN_foldl_cuVisitVarId]
  by_cases hc : (statementVarIds st).count v = 0 <;> simp [hc, lookupN_nil]

/-! ## Lemmas: the used-locals set -/

theorem mem_hsInsert (l : List Nat) (v w : Nat) :
    w ∈ hsInsert l v ↔ w ∈ l ∨ w = v := by
  by_cases h : v ∈ l
  · simp only [hsInsert, if_pos h]
    constructor
    · exact Or.inl
    · rintro (hw | rfl) <;> assumption
  · simp [hsInsert, if_neg h]

theorem mem_foldl_hsInsert_mono (xs : List Nat) :
    ∀ (l : List Nat) (w : Nat), w ∈ l → w ∈ xs.foldl hsInsert l := by
  induction xs with
  | nil => intro l w hw; simpa using hw
  | cons x xs ih =>
      intro l w hw
      exact ih _ _ ((mem_hsInsert l x w).mpr (Or.inl hw))

theorem mem_foldl_hsInsert (xs : List Nat) :
    ∀ (l : List Nat) (w : Nat), w ∈ xs → w ∈ xs.foldl hsInsert l := by
  induction xs with
  | nil => intro l w hw; simp at hw
  | cons x xs ih =>
      intro l w hw
      rcases List.mem_cons.mp hw with rfl | hw
      · exact mem_foldl_hsInsert_mono xs _ _
          ((mem_hsInsert l w w).mpr (Or.inr rfl))
      · exact ih _ _ hw

/-- The guarded fold adding positive-count entries only grows the set. -/
theorem mem_foldl_cntInsert_mono (cnt : VarMap) :
    ∀ (l : List Nat) (w : Nat), w ∈ l →
      w ∈ cnt.foldl (fun s p => if p.2 > 0 then hsInsert s p.1 else s) l := by
  induction cnt with
  | nil => intro l w hw; simpa using hw
  | cons p t ih =>
      intro l w hw
      simp only [List.foldl_cons]
      by_cases hp : p.2 > 0
      · rw [if_pos hp]
        exact ih _ _ ((mem_hsInsert l p.1 w).mpr (Or.inl hw))
      · rw [if_neg hp]
        exact ih _ _ hw

theorem mem_foldl_cntInsert (cnt : VarMap) :
    ∀ (l : List Nat) (v c : Nat), (v, c) ∈ cnt → c > 0 →
      v ∈ cnt.foldl (fun s p => if p.2 > 0 then hsInsert s p.1 else s) l := by
  induction cnt with
  | nil => intro l v c hv; simp at hv
  | cons p t ih =>
      intro l v c hv hc
      simp only [List.foldl_cons]
      rcases List.mem_cons.mp hv with rfl | hv
      · simp only [hc, if_pos]
        exact mem_foldl_cntInsert_mono t _ _
          ((mem_hsInsert l v v).mpr (Or.inr rfl))
      · exact ih _ _ _ hv hc

theorem mem_usedLocalsOf_of_le (num_inputs : Nat) (st : Statement)
    (i : Nat) (hi : i ≤ num_inputs) : i ∈ usedLocalsOf num_inputs st := by
  apply mem_foldl_cntInsert_mono
  apply mem_foldl_hsInsert
  simp [List.mem_range]
  omega

theorem mem_usedLocalsOf_of_occurs (num_inputs : Nat) (st : Statement)
    (v : Nat) (hv : v ∈ statementVarIds st) :
    v ∈ usedLocalsOf num_inputs st := by
  have hc : (statementVarIds st).count v ≠ 0 := by
    have := List.count_pos_iff.mpr hv
    omega
  have hlook := lookupN_compute_in_statement st v
  rw [if_neg hc] at hlook
  -- extract the binding from the map
  have hfind : ∃ p, (compute_in_statement st).find?
      (fun p => p.1 = v) = some p ∧ p.2 = (statementVarIds st).count v := by
    unfold lookupN at hlook
    cases hf : (compute_in_statement st).find? (fun p => p.1 = v) with
    | none => rw [hf] at hlook; simp at hlook
    | some p =>
        refine ⟨p, rfl, ?_⟩
        rw [hf] at hlook
        simpa using hlook
  obtain ⟨p, hf, hp2⟩ := hfind
  have hmem : p ∈ compute_in_statement st := List.mem_of_find?_eq_some hf
  have hp1 : p.1 = v := by
    have := List.find?_some hf
    simpa using this
  have : (v, p.2) ∈ compute_in_statement st := by
    rw [← hp1]; exact hmem
  exact mem_foldl_cntInsert _ _ v p.2 this (by omega)

/-! ## Lemmas: the filtering loop of `update_locals` -/

theorem ulLoop_dense (used : List Nat) :
    ∀ (l : List Var) (s s2 : ULState), DenseState s →
      ulLoop used s l = some s2 → DenseState s2 := by
  intro l
  induction l with
  | nil => intro s s2 hs h; cases h; exact hs
  | cons var rest ih =>
      intro s s2 hs h
      rw [ulLoop] at h
      by_cases hu : var.index ∈ used
      · rw [if_pos hu] at h
        rw [hs.1, if_pos rfl] at h
        refine ih _ _ ?_ h
        constructor
        · simp [hs.1]
        · intro i hi
          simp only [List.length_append, List.length_cons,
            List.length_nil] at hi
          simp only [List.get_eq_getElem]
          by_cases hlt : i < s.locals.length
          · rw [List.getElem_append_left hlt]
            have := hs.2 i hlt
            simpa using this
          · have hieq : i = s.locals.length := by omega
            subst hieq
            rw [List.getElem_append_right (Nat.le_refl _)]
            simp [hs.1]
      · rw [if_neg hu] at h
        exact ih _ _ hs h

/-- All substitution-map values stay below the new vector's length. -/
theorem ulLoop_lookup_lt (used : List Nat) :
    ∀ (l : List Var) (s s2 : ULState),
      (∀ v j, lookupN s.vids_map v = some j → j < s.locals.length) →
      s.counter = s.locals.length →
      ulLoop used s l = some s2 →
      ∀ v j, lookupN s2.vids_map v = some j → j < s2.locals.length := by
  intro l
  induction l with
  | nil => intro s s2 hs _ h; cases h; exact hs
  | cons var rest ih =>
      intro s s2 hs hc h
      rw [ulLoop] at h
      by_cases hu : var.index ∈ used
      · rw [if_pos hu, hc, if_pos rfl] at h
        refine ih _ _ ?_ ?_ h
        · intro v j hvj
          rw [lookupN_cons] at hvj
          simp only [List.length_append, List.length_cons, List.length_nil]
          by_cases hv : var.index = v
          · rw [if_pos hv] at hvj
            cases hvj
            omega
          · rw [if_neg hv] at hvj
            have := hs v j hvj
            omega
        · simp [hc]
      · rw [if_neg hu] at h
        exact ih _ _ hs hc h

/-- The loop only adds bindings: present keys stay present. -/
theorem ulLoop_isSome_mono (used : List Nat) :
    ∀ (l : List Var) (s s2 : ULState), ulLoop used s l = some s2 →
      ∀ v, (lookupN s.vids_map v).isSome →
        (lookupN s2.vids_map v).isSome := by
  intro l
  induction l with
  | nil => intro s s2 h; cases h; intro v hv; exact hv
  | cons var rest ih =>
      intro s s2 h v hv
      rw [ulLoop] at h
      by_cases hu : var.index ∈ used
      · rw [if_pos hu] at h
        by_cases hl : s.counter = s.locals.length
        · rw [if_pos hl] at h
          refine ih _ _ h v ?_
          rw [lookupN_cons]
          by_cases hvv : var.index = v
          · simp [hvv]
          · simpa [hvv] using hv
        · rw [if_neg hl] at h; cases h
      · rw [if_neg hu] at h
        exact ih _ _ h v hv

/-- Every old local whose id is in the used set ends up as a key of the
substitution map. -/
theorem ulLoop_covers (used : List Nat) :
    ∀ (l : List Var) (s s2 : ULState), ulLoop used s l = some s2 →
      ∀ var, var ∈ l → var.index ∈ used →
        (lookupN s2.vids_map var.index).isSome := by
  intro l
  induction l with
  | nil => intro s s2 h var hvar; simp at hvar
  | cons var0 rest ih =>
      intro s s2 h var hvar hu
      rw [ulLoop] at h
      rcases List.mem_cons.mp hvar with rfl | hvar
      · rw [if_pos hu] at h
        by_cases hl : s.counter = s.locals.length
        · rw [if_pos hl] at h
          refine ulLoop_isSome_mono used rest _ _ h _ ?_
          simp [lookupN_cons]
        · rw [if_neg hl] at h; cases h
      · by_cases hu0 : var0.index ∈ used
        · rw [if_pos hu0] at h
          by_cases hl : s.counter = s.locals.length
          · rw [if_pos hl] at h
            exact ih _ _ h var hvar hu
          · rw [if_neg hl] at h; cases h
        · rw [if_neg hu0] at h
          exact ih _ _ h var hvar hu

/-- Unfold `update_locals` to its loop. -/
theorem update_locals_eq_some (num_inputs : Nat) (old_locals : List Var)
    (st : Statement) (locals : List Var) (m : List (Nat × Nat))
    (h : update_locals num_inputs old_locals st = some (locals, m)) :
    ∃ s2, ulLoop (usedLocalsOf num_inputs st) ⟨[], [], 0⟩ old_locals
        = some s2 ∧ locals = s2.locals ∧ m = s2.vids_map := by
  unfold update_locals at h
  cases hloop : ulLoop (usedLocalsOf num_inputs st) ⟨[], [], 0⟩ old_locals with
  | none => rw [hloop] at h; simp at h
  | some s2 =>
      rw [hloop] at h
      dsimp only at h
      by_cases hnever : s2.locals.all (fun v => !v.ty.containsNever)
      · rw [if_pos hnever] at h
        cases h
        exact ⟨s2, rfl, rfl, rfl⟩
      · rw [if_neg hnever] at h
        simp at h

/-! ## Lemmas: the mutating traversal succeeds when every encountered
variable id is a key of the substitution map -/

theorem mapOpt_isSome {A B : Type} (f : A → Option B) (l : List A)
    (h : ∀ x ∈ l, (f x).isSome) : (mapOpt f l).isSome := by
  induction l with
  | nil => simp [mapOpt]
  | cons x t ih =>
      obtain ⟨y, hy⟩ := Option.isSome_iff_exists.mp (h x (List.mem_cons_self x t))
      obtain ⟨t2, ht2⟩ := Option.isSome_iff_exists.mp
        (ih fun z hz => h z (List.mem_cons_of_mem x hz))
      simp [mapOpt, hy, ht2]

theorem uuVisitProjection_isSome (m : List (Nat × Nat)) (l : Projection)
    (h : ∀ v ∈ projVarIds l, (lookupN m v).isSome) :
    (mapOpt (uuVisitProjectionElem m) l).isSome := by
  apply mapOpt_isSome
  intro pe hpe
  cases pe with
  | index i ty =>
      have hi : i ∈ projVarIds l := by
        simp only [projVarIds, List.mem_filterMap]
        exact ⟨.index i ty, hpe, rfl⟩
      obtain ⟨j, hj⟩ := Option.isSome_iff_exists.mp (h i hi)
      simp [uuVisitProjectionElem, uuVisitVarId, hj]
  | deref => simp [uuVisitProjectionElem]
  | derefBox => simp [uuVisitProjectionElem]
  | derefRawPtr => simp [uuVisitProjectionElem]
  | derefPtrUnique => simp [uuVisitProjectionElem]
  | derefPtrNonNull => simp [uuVisitProjectionElem]
  | field pk fid => simp [uuVisitProjectionElem]

theorem uuVisitPlace_isSome (m : List (Nat × Nat)) (p : Place)
    (h : ∀ v ∈ placeVarIds p, (lookupN m v).isSome) :
    (uuVisitPlace m p).isSome := by
  obtain ⟨w, hw⟩ := Option.isSome_iff_exists.mp
    (h p.var_id (by simp [placeVarIds]))
  obtain ⟨proj, hproj⟩ := Option.isSome_iff_exists.mp
    (uuVisitProjection_isSome m p.projection
      (fun v hv => h v (by simp [placeVarIds, hv])))
  simp [uuVisitPlace, uuVisitVarId, hw, hproj]

theorem uuVisitOperand_isSome (m : List (Nat × Nat)) (o : Operand)
    (h : ∀ v ∈ operandVarIds o, (lookupN m v).isSome) :
    (uuVisitOperand m o).isSome := by
  cases o with
  | copy p =>
      obtain ⟨p2, hp2⟩ := Option.isSome_iff_exists.mp
        (uuVisitPlace_isSome m p (by simpa [operandVarIds] using h))
      simp [uuVisitOperand, hp2]
  | move p =>
      obtain ⟨p2, hp2⟩ := Option.isSome_iff_exists.mp
        (uuVisitPlace_isSome m p (by simpa [operandVarIds] using h))
      simp [uuVisitOperand, hp2]
  | const ty cv => simp [uuVisitOperand]

theorem uuVisitOperands_isSome (m : List (Nat × Nat)) (ops : List Operand)
    (h : ∀ v ∈ (ops.map operandVarIds).flatten, (lookupN m v).isSome) :
    (mapOpt (uuVisitOperand m) ops).isSome := by
  apply mapOpt_isSome
  intro o ho
  apply uuVisitOperand_isSome
  intro v hv
  apply h
  simp only [List.mem_flatten, List.mem_map]
  exact ⟨operandVarIds o, ⟨o, ho, rfl⟩, hv⟩

theorem uuVisitRvalue_isSome (m : List (Nat × Nat)) (rv : Rvalue)
    (h : ∀ v ∈ rvalueVarIds rv, (lookupN m v).isSome) :
    (uuVisitRvalue m rv).isSome := by
  cases rv with
  | use o =>
      obtain ⟨o2, ho2⟩ := Option.isSome_iff_exists.mp
        (uuVisitOperand_isSome m o (by simpa [rvalueVarIds] using h))
      simp [uuVisitRvalue, ho2]
  | refRv p bk =>
      obtain ⟨p2, hp2⟩ := Option.isSome_iff_exists.mp
        (uuVisitPlace_isSome m p (by simpa [rvalueVarIds] using h))
      simp [uuVisitRvalue, hp2]
  | unaryOp op o =>
      obtain ⟨o2, ho2⟩ := Option.isSome_iff_exists.mp
        (uuVisitOperand_isSome m o (by simpa [rvalueVarIds] using h))
      simp [uuVisitRvalue, ho2]
  | binaryOp op o1 o2 =>
      obtain ⟨a, ha⟩ := Option.isSome_iff_exists.mp
        (uuVisitOperand_isSome m o1
          (fun v hv => h v (by simp [rvalueVarIds, hv])))
      obtain ⟨b, hb⟩ := Option.isSome_iff_exists.mp
        (uuVisitOperand_isSome m o2
          (fun v hv => h v (by simp [rvalueVarIds, hv])))
      simp [uuVisitRvalue, ha, hb]
  | discriminant p =>
      obtain ⟨p2, hp2⟩ := Option.isSome_iff_exists.mp
        (uuVisitPlace_isSome m p (by simpa [rvalueVarIds] using h))
      simp [uuVisitRvalue, hp2]
  | aggregate ak ops =>
      obtain ⟨l2, hl2⟩ := Option.isSome_iff_exists.mp
        (uuVisitOperands_isSome m ops (by simpa [rvalueVarIds] using h))
      simp [uuVisitRvalue, hl2]
  | globalRv id => simp [uuVisitRvalue]
  | len p ty cg =>
      obtain ⟨p2, hp2⟩ := Option.isSome_iff_exists.mp
        (uuVisitPlace_isSome m p (by simpa [rvalueVarIds] using h))
      simp [uuVisitRvalue, hp2]

theorem uuVisitCall_isSome (m : List (Nat × Nat)) (c : Call)
    (h : ∀ v ∈ callVarIds c, (lookupN m v).isSome) :
    (uuVisitCall m c).isSome := by
  obtain ⟨args, hargs⟩ := Option.isSome_iff_exists.mp
    (uuVisitOperands_isSome m c.args
      (fun v hv => h v (by simp [callVarIds, hv])))
  obtain ⟨dest, hdest⟩ := Option.isSome_iff_exists.mp
    (uuVisitPlace_isSome m c.dest
      (fun v hv => h v (by simp [callVarIds, hv])))
  simp [uuVisitCall, hargs, hdest]

theorem uuVisitStatement_isSome (m : List (Nat × Nat)) (st : Statement)
    (h : ∀ v ∈ statementVarIds st, (lookupN m v).isSome) :
    (uuVisitStatement m st).isSome := by
  induction st with
  | assign p rv =>
      obtain ⟨p2, hp2⟩ := Option.isSome_iff_exists.mp
        (uuVisitPlace_isSome m p
          (fun v hv => h v (by simp [statementVarIds, hv])))
      obtain ⟨rv2, hrv2⟩ := Option.isSome_iff_exists.mp
        (uuVisitRvalue_isSome m rv
          (fun v hv => h v (by simp [statementVarIds, hv])))
      simp [uuVisitStatement, hp2, hrv2]
  | fakeRead p =>
      obtain ⟨p2, hp2⟩ := Option.isSome_iff_exists.mp
        (uuVisitPlace_isSome m p (by simpa [statementVarIds] using h))
      simp [uuVisitStatement, hp2]
  | dropS p =>
      obtain ⟨p2, hp2⟩ := Option.isSome_iff_exists.mp
        (uuVisitPlace_isSome m p (by simpa [statementVarIds] using h))
      simp [uuVisitStatement, hp2]
  | callS c =>
      obtain ⟨c2, hc2⟩ := Option.isSome_iff_exists.mp
        (uuVisitCall_isSome m c (by simpa [statementVarIds] using h))
      simp [uuVisitStatement, hc2]
  | nop => simp [uuVisitStatement]
  | ret => simp [uuVisitStatement]
  | sequence s1 s2 ih1 ih2 =>
      obtain ⟨a, ha⟩ := Option.isSome_iff_exists.mp
        (ih1 (fun v hv => h v (by simp [statementVarIds, hv])))
      obtain ⟨b, hb⟩ := Option.isSome_iff_exists.mp
        (ih2 (fun v hv => h v (by simp [statementVarIds, hv])))
      simp [uuVisitStatement, ha, hb]
  | switchIf op s1 s2 ih1 ih2 =>
      obtain ⟨o2, ho2⟩ := Option.isSome_iff_exists.mp
        (uuVisitOperand_isSome m op
          (fun v hv => h v (by simp [statementVarIds, hv])))
      obtain ⟨a, ha⟩ := Option.isSome_iff_exists.mp
        (ih1 (fun v hv => h v (by simp [statementVarIds, hv])))
      obtain ⟨b, hb⟩ := Option.isSome_iff_exists.mp
        (ih2 (fun v hv => h v (by simp [statementVarIds, hv])))
      simp [uuVisitStatement, ho2, ha, hb]

/-! ## Lemmas: retained locals keep their payload -/

theorem ulLoop_lookup_stable (used : List Nat) :
    ∀ (l : List Var) (s s2 : ULState) (k : Nat),
      k ∉ l.map Var.index → ulLoop used s l = some s2 →
      lookupN s2.vids_map k = lookupN s.vids_map k := by
  intro l
  induction l with
  | nil => intro s s2 k _ h; cases h; rfl
  | cons var rest ih =>
      intro s s2 k hk h
      rw [ulLoop] at h
      have hk1 : var.index ≠ k := by
        intro hh
        apply hk
        rw [List.map_cons]
        exact hh ▸ List.mem_cons_self _ _
      have hk2 : k ∉ rest.map Var.index := by
        intro hh; exact hk (by rw [List.map_cons]; exact .tail _ hh)
      by_cases hu : var.index ∈ used
      · rw [if_pos hu] at h
        by_cases hl : s.counter = s.locals.length
        · rw [if_pos hl] at h
          rw [ih _ _ _ hk2 h, lookupN_cons, if_neg hk1]
        · rw [if_neg hl] at h; cases h
      · rw [if_neg hu] at h
        exact ih _ _ _ hk2 h

theorem ulLoop_locals_grow (used : List Nat) :
    ∀ (l : List Var) (s s2 : ULState), ulLoop used s l = some s2 →
      s.locals <+: s2.locals := by
  intro l
  induction l with
  | nil => intro s s2 h; cases h; exact ⟨[], List.append_nil _⟩
  | cons var rest ih =>
      intro s s2 h
      rw [ulLoop] at h
      by_cases hu : var.index ∈ used
      · rw [if_pos hu] at h
        by_cases hl : s.counter = s.locals.length
        · rw [if_pos hl] at h
          have := ih _ _ h
          exact List.IsPrefix.trans ⟨_, rfl⟩ this
        · rw [if_neg hl] at h; cases h
      · rw [if_neg hu] at h
        exact ih _ _ h

/-- A retained local is mapped to a fresh slot holding the same local with
its renumbered index (the old ids of the remaining locals being distinct
from its own, the binding is never overridden). -/
theorem ulLoop_covers_strong (used : List Nat) :
    ∀ (l : List Var) (s s2 : ULState), ulLoop used s l = some s2 →
      s.counter = s.locals.length →
      (l.map Var.index).Nodup →
      ∀ var ∈ l, var.index ∈ used →
        ∃ j, lookupN s2.vids_map var.index = some j ∧
          ∃ hj : j < s2.locals.length,
            s2.locals.get ⟨j, hj⟩ = { var with index := j } := by
  intro l
  induction l with
  | nil => intro s s2 h _ _ var hvar; simp at hvar
  | cons var0 rest ih =>
      intro s s2 h hc hnd var hvar hu
      rw [ulLoop] at h
      have hnd2 := hnd
      rw [List.map_cons, List.nodup_cons] at hnd2
      rcases List.mem_cons.mp hvar with rfl | hvar
      · rw [if_pos hu, if_pos hc] at h
        rw [hc] at h
        have hnotin : var.index ∉ rest.map Var.index := hnd2.1
        have hstable := ulLoop_lookup_stable used rest _ _ _ hnotin h
        have hpre := ulLoop_locals_grow used rest _ _ h
        obtain ⟨tail, htail⟩ := hpre
        refine ⟨s.locals.length, ?_, ?_⟩
        · rw [hstable, lookupN_cons, if_pos rfl]
        · have hlen2 : s.locals.length < s2.locals.length := by
            rw [← htail]; simp
          refine ⟨hlen2, ?_⟩
          have hq : s2.locals[s.locals.length]? =
              some { var with index := s.locals.length } := by
            rw [← htail]
            rw [List.getElem?_append_left (by simp)]
            simp
          rw [List.get_eq_getElem]
          rw [List.getElem?_eq_getElem hlen2] at hq
          exact Option.some.inj hq
      · by_cases hu0 : var0.index ∈ used
        · rw [if_pos hu0, if_pos hc] at h
          exact ih _ _ h (by simp [hc]) hnd2.2 var hvar hu
        · rw [if_neg hu0] at h
          exact ih _ _ h hc hnd2.2 var hvar hu

/-- A dense locals vector carries exactly the indices `0..len-1`. -/
theorem dense_map_index (l : List Var)
    (hdense : ∀ i (hi : i < l.length), (l.get ⟨i, hi⟩).index = i) :
    l.map Var.index = List.range l.length := by
  apply List.ext_getElem
  · simp
  · intro i h1 h2
    simp only [List.getElem_map, List.getElem_range]
    have := hdense i (by simpa using h1)
    simpa using this

/-! ## Claim theorems C1 - C4 -/

/-- C1: after the Dead-Local-Elimination pass (`update_locals`) produces
the new locals vector, the identifiers of the retained locals are exactly
`{0, ..., N-1}`: each retained local's `index` field equals its position in
the new dense vector. -/
theorem update_locals_density (num_inputs : Nat) (old_locals : List Var)
    (st : Statement) (locals : List Var) (m : List (Nat × Nat))
    (h : update_locals num_inputs old_locals st = some (locals, m)) :
    ∀ i (hi : i < locals.length), (locals.get ⟨i, hi⟩).index = i := by
  obtain ⟨s2, hloop, hlocals, hm⟩ :=
    update_locals_eq_some num_inputs old_locals st locals m h
  have hd : DenseState s2 :=
    ulLoop_dense _ old_locals _ _ ⟨rfl, by intro i hi; simp at hi⟩ hloop
  intro i hi
  subst hlocals
  exact hd.2 i hi

/-- C1, witness: a concrete run of the pass. -/
theorem update_locals_density_witness :
    update_locals 0 exLocals exSt = some (exNewLocals, exMap) ∧
      (exNewLocals.get ⟨1, by decide⟩).index = 1 :=
  ⟨rfl, update_locals_density 0 exLocals exSt exNewLocals exMap rfl 1
    (by decide)⟩

/-- C2: for a well-formed body (dense locals, every referenced variable id
in range), every variable identifier the mutating rewrite traversal
(`UpdateUsedLocals`) encounters in the statement tree is a key of the
substitution map computed by `update_locals`, so the `unwrap` in
`UpdateUsedLocals::visit_var_id` never fails and the rewrite succeeds. -/
theorem update_locals_subst_total (num_inputs : Nat) (old_locals : List Var)
    (st : Statement) (locals : List Var) (m : List (Nat × Nat))
    (h : update_locals num_inputs old_locals st = some (locals, m))
    (hdense : ∀ i (hi : i < old_locals.length),
      (old_locals.get ⟨i, hi⟩).index = i)
    (hscope : ∀ v ∈ statementVarIds st, v < old_locals.length) :
    (∀ v ∈ statementVarIds st, (lookupN m v).isSome) ∧
      (uuVisitStatement m st).isSome := by
  obtain ⟨s2, hloop, hlocals, hm⟩ :=
    update_locals_eq_some num_inputs old_locals st locals m h
  have hkeys : ∀ v ∈ statementVarIds st, (lookupN m v).isSome := by
    intro v hv
    have hvused := mem_usedLocalsOf_of_occurs num_inputs st v hv
    have hvlt := hscope v hv
    have hvar := List.get_mem old_locals v hvlt
    have hidx := hdense v hvlt
    have := ulLoop_covers _ old_locals _ _ hloop _ hvar (by rw [hidx]; exact hvused)
    rw [hidx] at this
    rw [hm]
    exact this
  exact ⟨hkeys, uuVisitStatement_isSome m st hkeys⟩

/-- C2, witness. -/
theorem update_locals_subst_total_witness :
    (lookupN exMap 2).isSome ∧ (uuVisitStatement exMap exSt).isSome :=
  ⟨(update_locals_subst_total 0 exLocals exSt exNewLocals exMap rfl
      (by decide) (by decide)).1 2 (by decide),
   (update_locals_subst_total 0 exLocals exSt exNewLocals exMap rfl
      (by decide) (by decide)).2⟩

/-- C3: the pass retains the return-slot local (id 0) and every
input-argument local (ids `1..=arg_count`) in the output locals vector,
referenced or not: each such id is a key of the substitution map, and the
slot it maps to holds that very local, renumbered. -/
theorem update_locals_retains_args (num_inputs : Nat) (old_locals : List Var)
    (st : Statement) (locals : List Var) (m : List (Nat × Nat))
    (h : update_locals num_inputs old_locals st = some (locals, m))
    (hdense : ∀ i (hi : i < old_locals.length),
      (old_locals.get ⟨i, hi⟩).index = i)
    (hlen : num_inputs + 1 ≤ old_locals.length) :
    ∀ i (hi : i ≤ num_inputs),
      ∃ j, lookupN m i = some j ∧
        ∃ hj : j < locals.length,
          locals.get ⟨j, hj⟩ =
            { old_locals.get ⟨i, by omega⟩ with index := j } := by
  obtain ⟨s2, hloop, hlocals, hm⟩ :=
    update_locals_eq_some num_inputs old_locals st locals m h
  intro i hi
  have hilt : i < old_locals.length := by omega
  have hvar := List.get_mem old_locals i hilt
  have hidx := hdense i hilt
  have hnd : (old_locals.map Var.index).Nodup := by
    rw [dense_map_index old_locals hdense]
    exact List.nodup_range _
  have hused : (old_locals.get ⟨i, hilt⟩).index ∈ usedLocalsOf num_inputs st := by
    rw [hidx]; exact mem_usedLocalsOf_of_le num_inputs st i hi
  obtain ⟨j, hj1, hj2, hj3⟩ :=
    ulLoop_covers_strong _ old_locals _ _ hloop rfl hnd _ hvar hused
  rw [hidx] at hj1
  subst hlocals hm
  exact ⟨j, hj1, hj2, hj3⟩

/-- C3, witness: the unreferenced return slot 0 is retained. -/
theorem update_locals_retains_args_witness :
    ∃ j, lookupN exMap 0 = some j ∧
      ∃ hj : j < exNewLocals.length,
        exNewLocals.get ⟨j, hj⟩ =
          { exLocals.get ⟨0, by decide⟩ with index := j } := by
  have := update_locals_retains_args 0 exLocals exSt exNewLocals exMap rfl
    (by decide) (by decide) 0 (Nat.le_refl 0)
  exact this

/-- C4: the occurrence map computed by
`ComputeUsedLocals::compute_in_statement` maps every variable occurring
`k > 0` times across the places and operands of the statement tree
(including place bases and projection index variables) to exactly `k`, and
contains no entry for a variable with zero occurrences. -/
theorem compute_in_statement_count (st : Statement) (v : VarId) :
    lookupN (compute_in_statement st) v =
      if (statementVarIds st).count v = 0 then none
      else some ((statementVarIds st).count v) :=
  lookupN_compute_in_statement st v

/-! ## Claim theorem C5 -/

/-- C5: serializing an `OperandConstantValue` succeeds exactly on the
`Literal` variant, exporting the underlying literal directly; every other
variant (`Adt`, `ConstantId`, `StaticId`, `Var`) hits the fatal
`unreachable!`, never a recoverable error value. -/
theorem serialize_ocv_literal_only (c : OperandConstantValue) :
    (∃ l, c = .literal l ∧ serializeOperandConstantValue c = .ok l) ∨
      (c.isLiteralV = false ∧
        serializeOperandConstantValue c = .fatalError) := by
  cases c with
  | literal l => exact Or.inl ⟨l, rfl, rfl⟩
  | adtC v fs => exact Or.inr ⟨rfl, rfl⟩
  | constantId id => exact Or.inr ⟨rfl, rfl⟩
  | staticId id => exact Or.inr ⟨rfl, rfl⟩
  | varC id => exact Or.inr ⟨rfl, rfl⟩

/-! ## Claim C6 (code bug): `translate_constant_scalar_value` on a
field-bearing ADT -/

/-- C6, code-bug evidence: despite the source comment "Check that there is
only one variant, with no fields and no parameters", a field-bearing struct
(and a single-variant enum whose variant has a field) passes every
assertion of `translate_constant_scalar_value` and yields a normal `Adt`
result with an empty field list, where the claim (and the comment) demand a
fatal assertion failure. -/
theorem translate_constant_scalar_value_field_bearing :
    translate_constant_scalar_value exCtx6 (.adt (.adtId 0) [] [] [])
        (.bits exBits) = some (.adtC none [], exCtx6) ∧
      translate_constant_scalar_value exCtx6e (.adt (.adtId 0) [] [] [])
        (.bits exBits) = some (.adtC (some 0) [], exCtx6e) :=
  ⟨rfl, rfl⟩

/-! ## Claim theorems C7 and C8 -/

/-- C7: in top-level extraction mode, translating an unevaluated constant
does not evaluate it (the result is the same for every evaluation oracle):
it returns the translated destination type paired with
`ConstantId g`, `g` being the global id registered for the constant's
defining declaration; the declaration is pushed onto the work-list exactly
once, and any later reference returns the same `g` leaving the context
(stack included) unchanged. -/
theorem translate_unevaluated_top_level
    (translateEty : MirTy → Option ETy) (ctx : TransCtx) (mir_ty : MirTy)
    (ucv : UnevaluatedConst) (ty : ETy)
    (hmode : extract_constants_at_top_level ctx.mir_level = true)
    (hety : translateEty mir_ty = some ty)
    (hfresh : ctx.global_id_map.get ucv.def_id = none)
    (hstack : AnyRustId.globalR ucv.def_id ∉ ctx.stack) :
    ∃ g ctx1,
      (∀ inlineEval,
        translate_const_kind_unevaluated inlineEval translateEty ctx mir_ty
          ucv = some ((ty, .constantId g), ctx1)) ∧
      ctx1.stack.count (AnyRustId.globalR ucv.def_id) = 1 ∧
      (∀ inlineEval,
        translate_const_kind_unevaluated inlineEval translateEty ctx1 mir_ty
          ucv = some ((ty, .constantId g), ctx1)) := by
  refine ⟨ctx.global_id_map.counter,
    ({ ctx with global_id_map :=
        (ctx.global_id_map.insertFresh ucv.def_id).2 }).push_id
      (.globalR ucv.def_id) (.globalT ctx.global_id_map.counter),
    ?_, ?_, ?_⟩
  · intro inlineEval
    simp [translate_const_kind_unevaluated, hmode,
      translate_constant_id_as_top_level, TransCtx.translate_global_decl_id,
      TransCtx.register_global_decl_id, hfresh, MapGenerator.insertFresh,
      TransCtx.push_id, hety]
  · simp only [TransCtx.push_id, lhsInsert, if_neg hstack]
    rw [List.count_append]
    rw [List.count_eq_zero_of_not_mem hstack]
    simp
  · intro inlineEval
    simp [translate_const_kind_unevaluated, hmode,
      translate_constant_id_as_top_level, TransCtx.translate_global_decl_id,
      TransCtx.register_global_decl_id, hfresh, MapGenerator.insertFresh,
      TransCtx.push_id, hety, MapGenerator.get, lookupN_cons]

/-- C7, witness: a fresh reference to declaration 7. -/
theorem translate_unevaluated_top_level_witness :
    ∃ g ctx1,
      (∀ inlineEval,
        translate_const_kind_unevaluated inlineEval
          (fun _ => some (.literal .bool)) exCtx7 0 ⟨7⟩ =
            some ((ETy.literal .bool, .constantId g), ctx1)) ∧
      ctx1.stack.count (AnyRustId.globalR 7) = 1 ∧
      (∀ inlineEval,
        translate_const_kind_unevaluated inlineEval
          (fun _ => some (.literal .bool)) ctx1 0 ⟨7⟩ =
            some ((ETy.literal .bool, .constantId g), ctx1)) :=
  translate_unevaluated_top_level (fun _ => some (.literal .bool)) exCtx7 0
    ⟨7⟩ (.literal .bool) rfl rfl rfl (by simp [exCtx7])

/-- C8: registration is idempotent in each namespace (types, functions,
globals): a second registration of an already-registered source declaration
id returns the same target id and leaves the whole context — the work-list
stack and the id-map included — unchanged. -/
theorem register_decl_id_idempotent (ctx : TransCtx) (d : DefId) :
    (((ctx.register_type_decl_id d).2.register_type_decl_id d).1 =
        (ctx.register_type_decl_id d).1 ∧
      ((ctx.register_type_decl_id d).2.register_type_decl_id d).2 =
        (ctx.register_type_decl_id d).2) ∧
    (((ctx.register_fun_decl_id d).2.register_fun_decl_id d).1 =
        (ctx.register_fun_decl_id d).1 ∧
      ((ctx.register_fun_decl_id d).2.register_fun_decl_id d).2 =
        (ctx.register_fun_decl_id d).2) ∧
    (((ctx.register_global_decl_id d).2.register_global_decl_id d).1 =
        (ctx.register_global_decl_id d).1 ∧
      ((ctx.register_global_decl_id d).2.register_global_decl_id d).2 =
        (ctx.register_global_decl_id d).2) := by
  refine ⟨?_, ?_, ?_⟩
  · cases hg : ctx.type_id_map.get d with
    | some i =>
        rw [MapGenerator.get] at hg
        simp [TransCtx.register_type_decl_id, MapGenerator.get, hg]
    | none =>
        rw [MapGenerator.get] at hg
        simp [TransCtx.register_type_decl_id, MapGenerator.get, hg,
          MapGenerator.insertFresh, TransCtx.push_id, lookupN_cons]
  · cases hg : ctx.fun_id_map.get d with
    | some i =>
        rw [MapGenerator.get] at hg
        simp [TransCtx.register_fun_decl_id, MapGenerator.get, hg]
    | none =>
        rw [MapGenerator.get] at hg
        simp [TransCtx.register_fun_decl_id, MapGenerator.get, hg,
          MapGenerator.insertFresh, TransCtx.push_id, lookupN_cons]
  · cases hg : ctx.global_id_map.get d with
    | some i =>
        rw [MapGenerator.get] at hg
        simp [TransCtx.register_global_decl_id, MapGenerator.get, hg]
    | none =>
        rw [MapGenerator.get] at hg
        simp [TransCtx.register_global_decl_id, MapGenerator.get, hg,
          MapGenerator.insertFresh, TransCtx.push_id, lookupN_cons]

/-! ## Lemmas: the B-tree-backed ordered map -/

theorem btreeGet_nil {V : Type} (k : Nat) : btreeGet ([] : List (Nat × V)) k = none := rfl

theorem btreeGet_cons {V : Type} (k2 : Nat) (v2 : V) (t : List (Nat × V))
    (k : Nat) :
    btreeGet ((k2, v2) :: t) k = if k2 = k then some v2 else btreeGet t k := by
  simp only [btreeGet, List.find?_cons]
  by_cases h : k2 = k <;> simp [h]

theorem btreeGet_eq_none_of_not_mem {V : Type} (m : List (Nat × V)) (k : Nat)
    (h : k ∉ m.map Prod.fst) : btreeGet m k = none := by
  induction m with
  | nil => rfl
  | cons p t ih =>
      obtain ⟨k2, v2⟩ := p
      rw [btreeGet_cons]
      rw [List.map_cons] at h
      have h1 : k2 ≠ k := fun hh => h (hh ▸ List.mem_cons_self _ _)
      rw [if_neg h1]
      exact ih fun hh => h (List.mem_cons_of_mem _ hh)

theorem mem_of_btreeGet_isSome {V : Type} (m : List (Nat × V)) (k : Nat)
    (h : (btreeGet m k).isSome) : k ∈ m.map Prod.fst := by
  by_contra hmem
  rw [btreeGet_eq_none_of_not_mem m k hmem] at h
  simp at h

theorem mem_keys_btreeInsert {V : Type} (k : Nat) (v : V) :
    ∀ (m : List (Nat × V)) (x : Nat),
      x ∈ (btreeInsert k v m).map Prod.fst →
        x = k ∨ x ∈ m.map Prod.fst := by
  intro m
  induction m with
  | nil => intro x hx; simp [btreeInsert] at hx; exact Or.inl hx
  | cons p t ih =>
      obtain ⟨k2, v2⟩ := p
      intro x hx
      rw [btreeInsert] at hx
      by_cases h1 : k < k2
      · rw [if_pos h1] at hx
        simp only [List.map_cons, List.mem_cons] at hx ⊢
        tauto
      · rw [if_neg h1] at hx
        by_cases h2 : k = k2
        · rw [if_pos h2] at hx
          simp only [List.map_cons, List.mem_cons] at hx ⊢
          tauto
        · rw [if_neg h2] at hx
          simp only [List.map_cons, List.mem_cons] at hx ⊢
          rcases hx with rfl | hx
          · tauto
          · rcases ih x hx with rfl | hx <;> tauto

theorem btreeInsert_sorted {V : Type} (k : Nat) (v : V) :
    ∀ (m : List (Nat × V)), (m.map Prod.fst).Pairwise (· < ·) →
      ((btreeInsert k v m).map Prod.fst).Pairwise (· < ·) := by
  intro m
  induction m with
  | nil => intro _; simp [btreeInsert]
  | cons p t ih =>
      obtain ⟨k2, v2⟩ := p
      intro hs
      rw [List.map_cons, List.pairwise_cons] at hs
      rw [btreeInsert]
      by_cases h1 : k < k2
      · rw [if_pos h1]
        simp only [List.map_cons, List.pairwise_cons, List.mem_cons]
        refine ⟨?_, hs.1, hs.2⟩
        rintro a (rfl | ha)
        · exact h1
        · exact h1.trans (hs.1 a ha)
      · rw [if_neg h1]
        by_cases h2 : k = k2
        · rw [if_pos h2]
          subst h2
          simp only [List.map_cons, List.pairwise_cons]
          exact hs
        · rw [if_neg h2]
          simp only [List.map_cons, List.pairwise_cons]
          refine ⟨?_, ih hs.2⟩
          intro a ha
          rcases mem_keys_btreeInsert k v t a ha with rfl | ha
          · omega
          · exact hs.1 a ha

theorem mapOfList_sorted_from {V : Type} (l : List (Nat × V)) :
    ∀ (m : List (Nat × V)), (m.map Prod.fst).Pairwise (· < ·) →
      (((l.foldl (fun m p => btreeInsert p.1 p.2 m) m)).map
        Prod.fst).Pairwise (· < ·) := by
  induction l with
  | nil => intro m hm; exact hm
  | cons p t ih =>
      intro m hm
      exact ih _ (btreeInsert_sorted p.1 p.2 m hm)

theorem mapOfList_sorted {V : Type} (l : List (Nat × V)) :
    ((mapOfList l).map Prod.fst).Pairwise (· < ·) :=
  mapOfList_sorted_from l [] (by simp)

/-- Two strictly-key-sorted association lists with the same lookup function
are equal. -/
theorem sorted_lookup_ext {V : Type} :
    ∀ (m1 m2 : List (Nat × V)),
      (m1.map Prod.fst).Pairwise (· < ·) →
      (m2.map Prod.fst).Pairwise (· < ·) →
      (∀ k, btreeGet m1 k = btreeGet m2 k) → m1 = m2 := by
  intro m1
  induction m1 with
  | nil =>
      intro m2 _ hs2 hext
      cases m2 with
      | nil => rfl
      | cons p t =>
          obtain ⟨k2, v2⟩ := p
          have := hext k2
          rw [btreeGet_nil, btreeGet_cons, if_pos rfl] at this
          simp at this
  | cons p t1 ih =>
      intro m2 hs1 hs2 hext
      obtain ⟨k1, v1⟩ := p
      cases m2 with
      | nil =>
          have := hext k1
          rw [btreeGet_nil, btreeGet_cons, if_pos rfl] at this
          simp at this
      | cons q t2 =>
          obtain ⟨k2, v2⟩ := q
          rw [List.map_cons, List.pairwise_cons] at hs1 hs2
          -- k1 is a key of m2 and k2 a key of m1, so k1 = k2
          have hk1mem : k1 ∈ ((k2, v2) :: t2).map Prod.fst := by
            apply mem_of_btreeGet_isSome
            rw [← hext k1, btreeGet_cons, if_pos rfl]
            rfl
          have hk2mem : k2 ∈ ((k1, v1) :: t1).map Prod.fst := by
            apply mem_of_btreeGet_isSome
            rw [hext k2, btreeGet_cons, if_pos rfl]
            rfl
          have hkeq : k1 = k2 := by
            rw [List.map_cons, List.mem_cons] at hk1mem hk2mem
            rcases hk1mem with h | h
            · exact h
            · rcases hk2mem with h2 | h2
              · exact h2.symm
              · have := hs2.1 k1 h
                have := hs1.1 k2 h2
                omega
          subst hkeq
          have hveq : v1 = v2 := by
            have := hext k1
            rw [btreeGet_cons, if_pos rfl, btreeGet_cons, if_pos rfl] at this
            exact Option.some.inj this
          subst hveq
          have htail : ∀ k, btreeGet t1 k = btreeGet t2 k := by
            intro k
            by_cases hk : k1 = k
            · subst hk
              rw [btreeGet_eq_none_of_not_mem t1 k1
                  (fun hh => absurd (hs1.1 k1 hh) (by omega)),
                btreeGet_eq_none_of_not_mem t2 k1
                  (fun hh => absurd (hs2.1 k1 hh) (by omega))]
            · have := hext k
              rw [btreeGet_cons, if_neg hk, btreeGet_cons, if_neg hk] at this
              exact this
          rw [ih t2 hs1.2 hs2.2 htail]

/-! ## Claim theorem C9 -/

/-- C9: serializing an id-keyed `Map` emits its bindings as a sequence in
strictly ascending key order, and two insertion sequences producing the
same bindings (the same lookup function) serialize to the same output
regardless of insertion order. -/
theorem map_serialize_sorted_deterministic {V : Type}
    (l1 l2 : List (Nat × V)) :
    ((serializeMap (mapOfList l1)).map Prod.fst).Pairwise (· < ·) ∧
      ((∀ k, btreeGet (mapOfList l1) k = btreeGet (mapOfList l2) k) →
        serializeMap (mapOfList l1) = serializeMap (mapOfList l2)) := by
  constructor
  · exact mapOfList_sorted l1
  · intro hext
    exact sorted_lookup_ext (mapOfList l1) (mapOfList l2)
      (mapOfList_sorted l1) (mapOfList_sorted l2) hext

/-- C9, witness: the same two bindings inserted in either order serialize
identically, sorted by key. -/
theorem map_serialize_sorted_deterministic_witness :
    ((serializeMap (mapOfList [(2, 5), (1, 7)])).map Prod.fst).Pairwise
        (· < ·) ∧
      serializeMap (mapOfList [(2, 5), (1, 7)]) =
        serializeMap (mapOfList [(1, 7), (2, 5)]) :=
  ⟨(map_serialize_sorted_deterministic [(2, 5), (1, 7)] [(1, 7), (2, 5)]).1,
   (map_serialize_sorted_deterministic [(2, 5), (1, 7)] [(1, 7), (2, 5)]).2
     (fun _ => rfl)⟩

/-! ## Claim theorem C10 -/

/-- C10: `push_const_generic_var` draws its fresh id from the const-generic
generator but asserts it against the length of `self.vars` — the
regular-locals vector, not the const-generic vector it pushes into.
Whenever the generator agrees with the const-generic vector (the invariant
maintained by pushing through this API), the call succeeds exactly when the
numbers of const-generic variables and of regular locals pushed so far
coincide — panicking whenever they differ — and on success it appends the
new variable densely (index = position) while leaving `vars` unchanged. -/
theorem push_const_generic_var_assert (ctx : BodyTransCtx) (rid : Nat)
    (ty : LiteralTy) (name : String)
    (hinv : ctx.const_generic_counter = ctx.const_generic_vars.length) :
    ((ctx.push_const_generic_var rid ty name).isSome ↔
        ctx.const_generic_vars.length = ctx.vars.length) ∧
      ∀ ctx2, ctx.push_const_generic_var rid ty name = some ctx2 →
        ctx2.const_generic_vars =
            ctx.const_generic_vars ++
              [⟨ctx.const_generic_vars.length, name, ty⟩] ∧
          ctx2.vars = ctx.vars := by
  by_cases hcond : ctx.const_generic_counter = ctx.vars.length
  · constructor
    · simp [BodyTransCtx.push_const_generic_var, hcond, vecInsertAt, hinv,
        ← hinv]
    · intro ctx2 h2
      rw [BodyTransCtx.push_const_generic_var] at h2
      rw [if_pos hcond] at h2
      rw [vecInsertAt, if_pos hinv] at h2
      simp only [Option.map_some', Option.some.injEq] at h2
      subst h2
      simp [hinv]
  · constructor
    · simp [BodyTransCtx.push_const_generic_var, hcond]
      omega
    · intro ctx2 h2
      rw [BodyTransCtx.push_const_generic_var, if_neg hcond] at h2
      simp at h2

/-- C10, witness: with zero locals and zero const-generic variables the
push succeeds and the const-generic vector stays dense. -/
theorem push_const_generic_var_assert_witness :
    ((exCtx10.push_const_generic_var 5 .bool "N").isSome ↔
        exCtx10.const_generic_vars.length = exCtx10.vars.length) ∧
      ∀ ctx2, exCtx10.push_const_generic_var 5 .bool "N" = some ctx2 →
        ctx2.const_generic_vars =
            exCtx10.const_generic_vars ++ [⟨0, "N", .bool⟩] ∧
          ctx2.vars = exCtx10.vars :=
  push_const_generic_var_assert exCtx10 5 .bool "N" rfl

end Charon
